import Mathlib

set_option maxRecDepth 100000

/-!
Verification of the browser-session orchestrator (`main.py`, `uncompletedbest.py`):
cookie applicability rules, the fingerprint observe-then-patch pipeline, the
network capture/diff engine, the session runner and the bounded-concurrency
orchestrator, shallowly embedded in Lean.
-/

/-! ### Bytes and SHA-256 (embeds `hashlib.sha256($).hexdigest()` from `uncompletedbest.py`) -/

/-- 2^32, the modulus for 32-bit words. -/
def w32 : Nat := 4294967296

/-- UTF-8 encoding of one Unicode code point, as a list of byte values. -/
def utf8Char (n : Nat) : List Nat :=
  if n < 128 then [n]
  else if n < 2048 then [192 + n / 64, 128 + n % 64]
  else if n < 65536 then [224 + n / 4096, 128 + (n / 64) % 64, 128 + n % 64]
  else [240 + n / 262144, 128 + (n / 4096) % 64, 128 + (n / 64) % 64, 128 + n % 64]

/-- UTF-8 byte sequence of a string (embeds Python's `s.encode("utf-8")`). -/
def utf8Bytes (s : String) : List Nat :=
  s.data.flatMap (fun c => utf8Char c.toNat)

/-- Rotate a 32-bit word right by `n` bits. -/
def rotr (n w : Nat) : Nat :=
  ((w >>> n) ||| (w <<< (32 - n))) % w32

/-- SHA-256 round constants (FIPS 180-4), as naturals. -/
def shaK : List Nat :=
  [1116352408, 1899447441, 3049323471, 3921009573, 961987163, 1508970993,
   2453635748, 2870763221, 3624381080, 310598401, 607225278, 1426881987,
   1925078388, 2162078206, 2614888103, 3248222580, 3835390401, 4022224774,
   264347078, 604807628, 770255983, 1249150122, 1555081692, 1996064986,
   2554220882, 2821834349, 2952996808, 3210313671, 3336571891, 3584528711,
   113926993, 338241895, 666307205, 773529912, 1294757372, 1396182291,
   1695183700, 1986661051, 2177026350, 2456956037, 2730485921, 2820302411,
   3259730800, 3345764771, 3516065817, 3600352804, 4094571909, 275423344,
   430227734, 506948616, 659060556, 883997877, 958139571, 1322822218,
   1537002063, 1747873779, 1955562222, 2024104815, 2227730452, 2361852424,
   2428436474, 2756734187, 3204031479, 3329325298]

/-- SHA-256 initial hash state, as naturals. -/
def shaH0 : List Nat :=
  [1779033703, 3144134277, 1013904242, 2773480762, 1359893119, 2600822924,
   528734635, 1541459225]

/-- SHA-256 padding: append 0x80, zeros, and the 64-bit big-endian bit length. -/
def shaPad (msg : List Nat) : List Nat :=
  let l := msg.length
  let zeros := (64 - ((l + 9) % 64)) % 64
  let bitLen := 8 * l
  msg ++ [0x80] ++ List.replicate zeros 0 ++
    ((List.range 8).map (fun i => (bitLen >>> (8 * (7 - i))) % 256))

/-- Split the padded message into 64-byte blocks. -/
def shaBlocks (padded : List Nat) : List (List Nat) :=
  (List.range (padded.length / 64)).map (fun i => ((padded.drop (64 * i)).take 64))

/-- Parse a 64-byte block into 16 big-endian 32-bit words. -/
def blockWords (blk : List Nat) : List Nat :=
  (List.range 16).map (fun i =>
    blk.getD (4 * i) 0 * 16777216 + blk.getD (4 * i + 1) 0 * 65536 +
    blk.getD (4 * i + 2) 0 * 256 + blk.getD (4 * i + 3) 0)

/-- One step of the message-schedule extension; `ws` holds the words most recent first. -/
def schedStep (ws : List Nat) : List Nat :=
  let s0 := rotr 7 (ws.getD 14 0) ^^^ rotr 18 (ws.getD 14 0) ^^^ (ws.getD 14 0 >>> 3)
  let s1 := rotr 17 (ws.getD 1 0) ^^^ rotr 19 (ws.getD 1 0) ^^^ (ws.getD 1 0 >>> 10)
  ((ws.getD 15 0 + s0 + ws.getD 6 0 + s1) % w32) :: ws

/-- The 64-word message schedule of a block (in forward order). -/
def schedule (blk : List Nat) : List Nat :=
  ((List.range 48).foldl (fun ws _ => schedStep ws) (blockWords blk).reverse).reverse

/-- One SHA-256 compression round; the state is the list `[a,b,c,d,e,f,g,h]`. -/
def compStep (st : List Nat) (kw : Nat × Nat) : List Nat :=
  match st with
  | [a, b, c, d, e, f, g, h] =>
    let s1 := rotr 6 e ^^^ rotr 11 e ^^^ rotr 25 e
    let ch := (e &&& f) ^^^ ((e ^^^ 4294967295) &&& g)
    let t1 := (h + s1 + ch + kw.1 + kw.2) % w32
    let s0 := rotr 2 a ^^^ rotr 13 a ^^^ rotr 22 a
    let mj := (a &&& b) ^^^ (c &&& a) ^^^ (b &&& c)
    let t2 := (s0 + mj) % w32
    [(t1 + t2) % w32, a, b, c, (d + t1) % w32, e, f, g]
  | _ => st

/-- Process one block: run 64 compression rounds and add the result to the state. -/
def shaBlockStep (hst : List Nat) (blk : List Nat) : List Nat :=
  let out := (shaK.zip (schedule blk)).foldl compStep hst
  (hst.zip out).map (fun p => (p.1 + p.2) % w32)

/-- The eight 32-bit words of the SHA-256 digest of a byte sequence. -/
def sha256Words (msg : List Nat) : List Nat :=
  (shaBlocks (shaPad msg)).foldl shaBlockStep shaH0

/-- Lowercase hexadecimal digit. -/
def hexChar (n : Nat) : Char :=
  if n < 10 then Char.ofNat (48 + n) else Char.ofNat (87 + n)

/-- Eight-digit lowercase hex form of a 32-bit word. -/
def wordHex (w : Nat) : List Char :=
  (List.range 8).map (fun i => hexChar ((w >>> (4 * (7 - i))) % 16))

/-- Hex digest of a byte sequence (embeds `hashlib.sha256($).hexdigest()`). -/
def sha256Hex (msg : List Nat) : String :=
  String.mk ((sha256Words msg).flatMap wordHex)

/-- `sha` from `uncompletedbest.py`:
`hashlib.sha256(s.encode("utf-8")).hexdigest()[:12]`. -/
def sha (s : String) : String :=
  (sha256Hex (utf8Bytes s)).take 12

/-! ### Canonical JSON form (embeds `json.dumps(x, sort_keys=True)` for the
normalized request records of `uncompletedbest.py`) -/

/-- Four-digit lowercase hex form of a code unit, for `\uXXXX` escapes. -/
def hex4 (n : Nat) : List Char :=
  (List.range 4).map (fun i => hexChar ((n >>> (4 * (3 - i))) % 16))

/-- JSON escaping of one character, following `json.dumps` with its default
`ensure_ascii=True` (short escapes for the common controls, `\uXXXX` escapes
with surrogate pairs for the rest). -/
def escChar (c : Char) : List Char :=
  if c = '"' then ['\\', '"']
  else if c = '\\' then ['\\', '\\']
  else if c = '\n' then ['\\', 'n']
  else if c = '\t' then ['\\', 't']
  else if c = '\r' then ['\\', 'r']
  else if c.toNat = 8 then ['\\', 'b']
  else if c.toNat = 12 then ['\\', 'f']
  else if c.toNat < 32 ∨ c.toNat ≥ 127 then
    if c.toNat < 65536 then '\\' :: 'u' :: hex4 c.toNat
    else '\\' :: 'u' :: hex4 (55296 + (c.toNat - 65536) / 1024) ++
         '\\' :: 'u' :: hex4 (56320 + (c.toNat - 65536) % 1024)
  else [c]

/-- A JSON string literal: quoted, escaped. -/
def jsonQuote (s : String) : String :=
  String.mk ('"' :: s.data.flatMap escChar ++ ['"'])

/-- Insertion of one key-value pair into a key-sorted association list
(string comparison is Python's code-point order). -/
def insertByKey (kv : String × String) : List (String × String) → List (String × String)
  | [] => [kv]
  | x :: xs => if kv.1 ≤ x.1 then kv :: x :: xs else x :: insertByKey kv xs

/-- Sort an association list by key, as `sort_keys=True` does for a dict. -/
def sortByKey (l : List (String × String)) : List (String × String) :=
  l.foldr insertByKey []

/-- JSON object form of a string-to-string dict with sorted keys and the
default separators of `json.dumps`. -/
def dumpsStrDict (l : List (String × String)) : String :=
  "\x7b" ++ String.intercalate ", "
    ((sortByKey l).map (fun kv => jsonQuote kv.1 ++ ": " ++ jsonQuote kv.2)) ++ "\x7d"

/-- A captured request record as produced by `normalize_req`:
`{url, method, headers (lowercased keys), postData}`. -/
structure Req where
  url : String
  method : String
  headers : List (String × String)
  postData : String
deriving DecidableEq, Repr

/-- `json.dumps(x, sort_keys=True)` for a normalized request record; the four
top-level keys appear in their sorted order
`headers < method < postData < url`. -/
def dumps (r : Req) : String :=
  "\x7b\"headers\": " ++ dumpsStrDict r.headers ++
  ", \"method\": " ++ jsonQuote r.method ++
  ", \"postData\": " ++ jsonQuote r.postData ++
  ", \"url\": " ++ jsonQuote r.url ++ "\x7d"

/-- The content fingerprint of a record: `sha(json.dumps(x, sort_keys=True))`. -/
def rho (r : Req) : String := sha (dumps r)

/-! ### The dict model and `diff_requests` (`uncompletedbest.py`, lines 121-126) -/

/-- The keys of a dict modelled as an association list. -/
def dkeys (d : List (String × Req)) : List String := d.map Prod.fst

/-- Insertion into a Python dict: a repeated key overwrites the stored value
in place, a fresh key is appended. -/
def dictInsert (d : List (String × Req)) (k : String) (v : Req) : List (String × Req) :=
  if k ∈ dkeys d then d.map (fun kv => if kv.1 = k then (k, v) else kv) else d ++ [(k, v)]

/-- A dict comprehension `{f(x): x for x in l}` keyed by a hash function `f`. -/
def dictFold (f : Req → String) (l : List Req) : List (String × Req) :=
  l.foldl (fun d x => dictInsert d (f x) x) []

/-- The dict comprehension `{sha(json.dumps(x, sort_keys=True)): x for x in l}`. -/
def hashDict (l : List Req) : List (String × Req) :=
  dictFold rho l

/-- The added/removed pair returned by `diff_requests`. -/
structure DiffResult where
  added : List Req
  removed : List Req
deriving DecidableEq, Repr

/-- `diff_requests(a, b)`: the values of `sb` at keys `sb.keys() - sa.keys()`
(the set difference of the key views is modelled by filtering the entries of
the dict being indexed, which carries each surviving key exactly once) and
symmetrically for `removed`. -/
def diff_requests (a b : List Req) : DiffResult :=
  let sa := hashDict a
  let sb := hashDict b
  { added := (sb.filter (fun kv => !(dkeys sa).contains kv.1)).map Prod.snd,
    removed := (sa.filter (fun kv => !(dkeys sb).contains kv.1)).map Prod.snd }

/-! ### Dict lemmas and the diff contract -/

lemma mem_dictInsert {d : List (String × Req)} {k : String} {v : Req} {kv : String × Req}
    (h : kv ∈ dictInsert d k v) : kv ∈ d ∨ kv = (k, v) := by
  unfold dictInsert at h
  split at h
  · rcases List.mem_map.mp h with ⟨kv0, hkv0, heq⟩
    by_cases hk : kv0.1 = k
    · simp only [hk, if_pos] at heq
      exact Or.inr heq.symm
    · simp only [hk, if_neg, not_false_iff] at heq
      exact Or.inl (heq ▸ hkv0)
  · rcases List.mem_append.mp h with h1 | h1
    · exact Or.inl h1
    · simp only [List.mem_singleton] at h1
      exact Or.inr h1

lemma self_mem_dictInsert (d : List (String × Req)) (k : String) (v : Req) :
    (k, v) ∈ dictInsert d k v := by
  unfold dictInsert
  split
  · next hmem =>
    rcases List.mem_map.mp hmem with ⟨kv0, hkv0, hfst⟩
    exact List.mem_map.mpr ⟨kv0, hkv0, by simp [hfst]⟩
  · exact List.mem_append_right _ (by simp)

lemma mem_dictInsert_of_ne {d : List (String × Req)} {k : String} {v : Req} {kv : String × Req}
    (h : kv ∈ d) (hne : kv.1 ≠ k) : kv ∈ dictInsert d k v := by
  unfold dictInsert
  split
  · exact List.mem_map.mpr ⟨kv, h, by simp [hne]⟩
  · exact List.mem_append_left _ h

lemma mem_dkeys_dictInsert {d : List (String × Req)} {k : String} {v : Req} {q : String} :
    q ∈ dkeys (dictInsert d k v) ↔ q ∈ dkeys d ∨ q = k := by
  constructor
  · intro hq
    rcases List.mem_map.mp hq with ⟨kv0, hkv0, hfst⟩
    rcases mem_dictInsert hkv0 with h1 | h1
    · exact Or.inl (hfst ▸ List.mem_map.mpr ⟨kv0, h1, rfl⟩)
    · subst h1
      exact Or.inr hfst.symm
  · intro hq
    rcases hq with hq | hq
    · rcases List.mem_map.mp hq with ⟨kv0, hkv0, hfst⟩
      by_cases hk : kv0.1 = k
      · have hkq : k = q := hk ▸ hfst
        exact List.mem_map.mpr ⟨(k, v), self_mem_dictInsert d k v, hkq⟩
      · exact List.mem_map.mpr ⟨kv0, mem_dictInsert_of_ne hkv0 hk, hfst⟩
    · subst hq
      exact List.mem_map.mpr ⟨(q, v), self_mem_dictInsert d q v, rfl⟩


lemma mem_dictFold {f : Req → String} {l : List Req} :
    ∀ {d k v}, (k, v) ∈ l.foldl (fun d x => dictInsert d (f x) x) d →
      (k, v) ∈ d ∨ (v ∈ l ∧ k = f v) := by
  induction l with
  | nil => exact fun h => Or.inl h
  | cons x xs ih =>
    intro d k v h
    rw [List.foldl_cons] at h
    rcases ih h with h1 | h1
    · rcases mem_dictInsert h1 with h2 | h2
      · exact Or.inl h2
      · injection h2 with h3 h4
        subst h3
        subst h4
        exact Or.inr ⟨List.mem_cons_self _ _, rfl⟩
    · exact Or.inr ⟨List.mem_cons_of_mem x h1.1, h1.2⟩

lemma mem_dkeys_dictFold {f : Req → String} {l : List Req} :
    ∀ {d q}, q ∈ dkeys (l.foldl (fun d x => dictInsert d (f x) x) d) ↔
      q ∈ dkeys d ∨ q ∈ l.map f := by
  induction l with
  | nil => simp
  | cons x xs ih =>
    intro d q
    rw [List.foldl_cons]
    constructor
    · intro h
      rcases ih.mp h with h1 | h1
      · rcases mem_dkeys_dictInsert.mp h1 with h2 | h2
        · exact Or.inl h2
        · exact Or.inr (by simp [h2])
      · exact Or.inr (by simp [h1])
    · intro h
      apply ih.mpr
      rcases h with h1 | h1
      · exact Or.inl (mem_dkeys_dictInsert.mpr (Or.inl h1))
      · rcases List.mem_map.mp h1 with ⟨y, hy, hq⟩
        rcases List.mem_cons.mp hy with h2 | h2
        · exact Or.inl (mem_dkeys_dictInsert.mpr (Or.inr (by rw [← hq, h2])))
        · exact Or.inr (List.mem_map.mpr ⟨y, h2, hq⟩)

lemma hash_mem_dictFold {f : Req → String} {l : List Req}
    (hinj : ∀ x ∈ l, ∀ y ∈ l, f x = f y → x = y) :
    ∀ {x}, x ∈ l → (f x, x) ∈ dictFold f l := by
  induction l using List.reverseRecOn with
  | nil => intro x hx; cases hx
  | append_singleton l y ih =>
    intro x hx
    have hfold : dictFold f (l ++ [y]) = dictInsert (dictFold f l) (f y) y := by
      unfold dictFold
      rw [List.foldl_append]
      rfl
    rw [hfold]
    rcases List.mem_append.mp hx with hxl | hxy
    · by_cases hre : f x = f y
      · have hxy2 : x = y := hinj x hx y (List.mem_append_right l (by simp)) hre
        subst hxy2
        exact hre ▸ self_mem_dictInsert (dictFold f l) (f x) x
      · have hin : (f x, x) ∈ dictFold f l :=
          ih (fun a ha b hb => hinj a (List.mem_append_left _ ha) b (List.mem_append_left _ hb)) hxl
        exact mem_dictInsert_of_ne hin hre
    · simp only [List.mem_singleton] at hxy
      subst hxy
      exact self_mem_dictInsert (dictFold f l) (f x) x

/-- Membership in the value list extracted from `sb` at the keys missing from `sa`,
for an arbitrary key function, under injectivity of the key function on `b`. -/
lemma mem_dictFold_diff_iff {f : Req → String} {a b : List Req}
    (hinj : ∀ x ∈ b, ∀ y ∈ b, f x = f y → x = y) (x : Req) :
    x ∈ ((dictFold f b).filter (fun kv => !(dkeys (dictFold f a)).contains kv.1)).map Prod.snd ↔
      x ∈ b ∧ f x ∉ a.map f := by
  constructor
  · intro hx
    rcases List.mem_map.mp hx with ⟨kv, hkv, hsnd⟩
    rcases List.mem_filter.mp hkv with ⟨hkvd, hkey⟩
    obtain ⟨k, v⟩ := kv
    have h1 := mem_dictFold hkvd
    rcases h1 with h1 | h1
    · cases h1
    · have hvx : v = x := hsnd
      refine ⟨hvx ▸ h1.1, fun hmem => ?_⟩
      have hk : k ∈ dkeys (dictFold f a) := by
        apply (mem_dkeys_dictFold (d := [])).mpr
        refine Or.inr ?_
        rw [h1.2, hvx]
        exact hmem
      simp only [List.contains, Bool.not_eq_true'] at hkey
      rw [List.elem_eq_mem, decide_eq_false_iff_not] at hkey
      exact hkey hk
  · rintro ⟨hxb, hnot⟩
    have h1 := hash_mem_dictFold hinj hxb
    refine List.mem_map.mpr ⟨(f x, x), List.mem_filter.mpr ⟨h1, ?_⟩, rfl⟩
    have hnk : f x ∉ dkeys (dictFold f a) := by
      intro hc
      rcases (mem_dkeys_dictFold (d := [])).mp hc with h2 | h2
      · cases h2
      · exact hnot h2
    simp only [List.contains, Bool.not_eq_true']
    rw [List.elem_eq_mem, decide_eq_false_iff_not]
    exact hnk

lemma diff_added_eq (a b : List Req) :
    (diff_requests a b).added =
      ((dictFold rho b).filter (fun kv => !(dkeys (dictFold rho a)).contains kv.1)).map Prod.snd :=
  rfl

lemma diff_removed_eq (a b : List Req) :
    (diff_requests a b).removed =
      ((dictFold rho a).filter (fun kv => !(dkeys (dictFold rho b)).contains kv.1)).map Prod.snd :=
  rfl

/-- C1: `diff(A, B)` returns as `added` the set of records of `B` whose content
hash `rho` (the truncated digest of the canonical sorted-key JSON form) is not
among the hashes of `A`, and as `removed` the records of `A` whose hash is not
among the hashes of `B`; permuting `A` or `B` leaves both sets unchanged. The
hypothesis is the collision-freedom of the truncated digest on the records at
hand, the accepted-risk precondition the diff key scheme relies on. -/
theorem C1_diff_keyed_by_content_hash (a b : List Req)
    (hinj : ∀ x ∈ a ++ b, ∀ y ∈ a ++ b, rho x = rho y → x = y) :
    (∀ x, x ∈ (diff_requests a b).added ↔ x ∈ b ∧ rho x ∉ a.map rho) ∧
    (∀ x, x ∈ (diff_requests a b).removed ↔ x ∈ a ∧ rho x ∉ b.map rho) ∧
    (∀ a2 b2, a.Perm a2 → b.Perm b2 →
      (∀ x, x ∈ (diff_requests a2 b2).added ↔ x ∈ (diff_requests a b).added) ∧
      (∀ x, x ∈ (diff_requests a2 b2).removed ↔ x ∈ (diff_requests a b).removed)) := by
  have hinja : ∀ x ∈ a, ∀ y ∈ a, rho x = rho y → x = y :=
    fun x hx y hy => hinj x (List.mem_append_left _ hx) y (List.mem_append_left _ hy)
  have hinjb : ∀ x ∈ b, ∀ y ∈ b, rho x = rho y → x = y :=
    fun x hx y hy => hinj x (List.mem_append_right _ hx) y (List.mem_append_right _ hy)
  have hadd : ∀ x, x ∈ (diff_requests a b).added ↔ x ∈ b ∧ rho x ∉ a.map rho := by
    intro x
    rw [diff_added_eq]
    exact mem_dictFold_diff_iff hinjb x
  have hrem : ∀ x, x ∈ (diff_requests a b).removed ↔ x ∈ a ∧ rho x ∉ b.map rho := by
    intro x
    rw [diff_removed_eq]
    exact mem_dictFold_diff_iff hinja x
  refine ⟨hadd, hrem, fun a2 b2 hpa hpb => ?_⟩
  have hinja2 : ∀ x ∈ a2, ∀ y ∈ a2, rho x = rho y → x = y :=
    fun x hx y hy => hinja x (hpa.mem_iff.mpr hx) y (hpa.mem_iff.mpr hy)
  have hinjb2 : ∀ x ∈ b2, ∀ y ∈ b2, rho x = rho y → x = y :=
    fun x hx y hy => hinjb x (hpb.mem_iff.mpr hx) y (hpb.mem_iff.mpr hy)
  constructor
  · intro x
    rw [diff_added_eq, mem_dictFold_diff_iff hinjb2 x, hadd x,
      hpb.mem_iff, (hpa.map rho).mem_iff]
  · intro x
    rw [diff_removed_eq, mem_dictFold_diff_iff hinja2 x, hrem x,
      hpa.mem_iff, (hpb.map rho).mem_iff]

/-- A sample captured login request. -/
def reqLogin : Req :=
  { url := "https://site/login", method := "GET", headers := [("accept", "x")], postData := "" }

/-- A sample captured tracking request. -/
def reqTrack : Req :=
  { url := "https://site/track", method := "GET", headers := [("accept", "x")], postData := "" }

/-- Witness for C1 at a concrete capture pair: the fresh tracking request is
reported as added. -/
theorem C1_diff_keyed_by_content_hash_witness :
    reqTrack ∈ (diff_requests [reqLogin] [reqLogin, reqTrack]).added :=
  ((C1_diff_keyed_by_content_hash [reqLogin] [reqLogin, reqTrack] (by decide)).1 reqTrack).mpr
    (by constructor <;> decide)

/-- C8: `diff(A, B).added` equals `diff(B, A).removed` and `diff(A, B).removed`
equals `diff(B, A).added` — here even as lists, since both sides extract the
same dict entries. -/
theorem C8_diff_symmetry (a b : List Req) :
    (diff_requests a b).added = (diff_requests b a).removed ∧
    (diff_requests a b).removed = (diff_requests b a).added :=
  ⟨rfl, rfl⟩

/-! ### Cookie rules (`main.py`, `_domain_match`, `_path_match`,
`load_cookies_domain_safe`) -/

/-- `_domain_match(cd, host)` from `main.py`: fail on a falsy domain, strip the
leading dots (`lstrip(".")`), lowercase both sides, then test equality or a
dotted-suffix relation (`host.endswith("." + cd)`). -/
def domain_match (cd host : String) : Bool :=
  if cd.data = [] then false
  else
    let c := (cd.data.dropWhile (fun ch => ch = '.')).map Char.toLower
    let h := host.data.map Char.toLower
    h == c || List.isSuffixOf ('.' :: c) h

/-- `_path_match(cp, req)` from `main.py`: an empty cookie path always matches;
otherwise `req.startswith(cp if cp.startswith("/") else "/" + cp)`. -/
def path_match (cp req : String) : Bool :=
  if cp.data = [] then true
  else
    let c := if List.isPrefixOf ['/'] cp.data then cp.data else '/' :: cp.data
    List.isPrefixOf c req.data

/-- The target descriptor `urlparse` yields: scheme, hostname and path. -/
structure Target where
  scheme : String
  hostname : String
  path : String
deriving DecidableEq

/-- `req_path = p.path or "/"`. -/
def reqPath (t : Target) : String :=
  if t.path.data = [] then "/" else t.path

/-- One stored cookie record as `load_cookies_domain_safe` consumes it: the
attributes it reads (`domain`, `path`, `secure`), a missing key modelled as
`none`, plus whether the live `driver.add_cookie` call would accept it. -/
structure Cookie where
  domain : Option String
  path : Option String
  secure : Bool
  addOk : Bool
deriving DecidableEq

/-- The body of the cookie loop: each record either fails the domain, path or
secure check, or is attempted against the browser; exactly one of the two
counters is incremented (`c.get("domain")` is `None`-safe because
`_domain_match` rejects a falsy domain, modelled by `getD ""`). -/
def cookieStep (t : Target) (st : Nat × Nat) (c : Cookie) : Nat × Nat :=
  if !domain_match (c.domain.getD "") t.hostname then (st.1, st.2 + 1)
  else if !path_match (c.path.getD "/") (reqPath t) then (st.1, st.2 + 1)
  else if c.secure && !(t.scheme == "https") then (st.1, st.2 + 1)
  else if c.addOk then (st.1 + 1, st.2) else (st.1, st.2 + 1)

/-- The `(added, skipped)` counters after `load_cookies_domain_safe` runs a
parsed cookie list against one target. -/
def load_cookies_domain_safe (t : Target) (cookies : List Cookie) : Nat × Nat :=
  cookies.foldl (cookieStep t) (0, 0)

lemma cookieStep_sum (t : Target) (st : Nat × Nat) (c : Cookie) :
    (cookieStep t st c).1 + (cookieStep t st c).2 = st.1 + st.2 + 1 := by
  unfold cookieStep
  split
  · simp [Nat.add_assoc]
  · split
    · simp [Nat.add_assoc]
    · split
      · simp [Nat.add_assoc]
      · split
        · simp [Nat.add_right_comm]
        · simp [Nat.add_assoc]

lemma load_cookies_foldl_sum (t : Target) (cookies : List Cookie) :
    ∀ st : Nat × Nat, (cookies.foldl (cookieStep t) st).1 + (cookies.foldl (cookieStep t) st).2 =
      st.1 + st.2 + cookies.length := by
  induction cookies with
  | nil => intro st; rfl
  | cons c cs ih =>
    intro st
    rw [List.foldl_cons, ih (cookieStep t st c), cookieStep_sum]
    simp [Nat.add_assoc, Nat.add_comm, Nat.add_left_comm]

/-- C10: after processing a cookie file with `n` records against one target,
`added + skipped = n` — every record increments exactly one of the counters. -/
theorem C10_cookie_counters_partition (t : Target) (cookies : List Cookie) :
    (load_cookies_domain_safe t cookies).1 + (load_cookies_domain_safe t cookies).2 =
      cookies.length := by
  unfold load_cookies_domain_safe
  rw [load_cookies_foldl_sum]
  simp

/-- The domain rule exactly as the claim words it: strip a single leading dot
(rather than every leading dot), lowercase both sides, then test equality or
the dotted-suffix relation; an empty domain never matches. -/
def domainMatchOneDot (cd host : String) : Bool :=
  if cd.data = [] then false
  else
    let stripped := match cd.data with
      | [] => []
      | ch :: rest => if ch = '.' then rest else ch :: rest
    let c := stripped.map Char.toLower
    let h := host.data.map Char.toLower
    h == c || List.isSuffixOf ('.' :: c) h

/-- C2 counterexample: on a domain attribute with two leading dots the code
(`lstrip` strips them all) matches where the claim's single-dot strip does
not. -/
theorem C2_counterexample_double_dot :
    domain_match "..example.com" "example.com" = true ∧
    domainMatchOneDot "..example.com" "example.com" = false := by
  decide

/-- C2 amended: the domain check strips all leading dots (not just one),
lowercases both sides, and succeeds exactly when the lowercased target host
equals the stripped lowercased cookie domain or extends it by a `'.'`-joined
prefix; an empty domain never matches, and the spec's concrete examples hold. -/
theorem C2_domain_match_amended :
    (∀ cd host, domain_match cd host = true ↔
      cd ≠ "" ∧
        (host.data.map Char.toLower =
            (cd.data.dropWhile (fun ch => ch = '.')).map Char.toLower ∨
         ∃ p, host.data.map Char.toLower =
            p ++ '.' :: (cd.data.dropWhile (fun ch => ch = '.')).map Char.toLower)) ∧
    domain_match "example.com" "example.com" = true ∧
    domain_match "example.com" "www.example.com" = true ∧
    domain_match "example.com" "notexample.com" = false ∧
    (∀ host, domain_match "" host = false) := by
  refine ⟨?_, by decide, by decide, by decide, fun host => rfl⟩
  intro cd host
  unfold domain_match
  by_cases hcd : cd.data = []
  · have hcd2 : cd = "" := String.ext hcd
    rw [if_pos hcd]
    simp [hcd2]
  · have hcd2 : cd ≠ "" := fun hc => hcd (by subst hc; rfl)
    rw [if_neg hcd]
    simp only [Bool.or_eq_true, beq_iff_eq, List.isSuffixOf_iff_suffix]
    constructor
    · rintro (h1 | ⟨p, hp⟩)
      · exact ⟨hcd2, Or.inl h1⟩
      · exact ⟨hcd2, Or.inr ⟨p, hp.symm⟩⟩
    · rintro ⟨-, h1 | ⟨p, hp⟩⟩
      · exact Or.inl h1
      · exact Or.inr ⟨p, hp.symm⟩

/-- C3: the code's path check is a plain string-prefix test, so cookie path
`"/api"` matches the request path `"/api/v2/x"` but also matches
`"/apiextra"`, where the spec's boundary example requires a non-match. -/
theorem C3_path_match_plain_string_prefix :
    path_match "/api" "/api/v2/x" = true ∧ path_match "/api" "/apiextra" = true := by
  decide

/-! ### Fingerprint pipeline (`fingerprint_init_script` in `uncompletedbest.py`;
`inject_fp_detection` and `apply_fp_overrides` in `main.py`) -/

/-- The environment-style configuration keys the fingerprint and session code
reads; a `Bool` field models `on(KEY)`, an `Option` field a key that may be
unset. -/
structure Config where
  REMOVE_NAVIGATOR_WEBDRIVER : Bool
  FAKE_HARDWARE_CONCURRENCY : Option Nat
  FAKE_DEVICE_MEMORY : Option Nat
  FP_WEBGL : Bool
  FP_CANVAS : Bool
  FP_AUDIO : Bool
  FP_DETECT : Bool
  WEBGL_VENDOR : String
  WEBGL_RENDERER : String
  EXPORT_STORAGE : Bool
  WAIT_FOR_SELECTOR : Option String
deriving DecidableEq

/-- The `window.__fp_used` usage report: one flag per fingerprint surface. -/
structure FpUsed where
  webgl : Bool
  canvas : Bool
  audio : Bool
deriving DecidableEq

/-- The three fingerprint-sensitive surfaces. -/
inductive Surface
  | webgl
  | canvas
  | audio
deriving DecidableEq

/-- One script segment appended to `s` by `fingerprint_init_script`. -/
inductive Segment
  | removeWebdriver
  | hardwareConcurrency (n : Nat)
  | deviceMemory (n : Nat)
  | webglOverride (vendor renderer : String)
  | canvasOverride
  | audioOverride
  | detectProbes
deriving DecidableEq

/-- `fingerprint_init_script` from `uncompletedbest.py`: the list of script
segments it joins, in source order; each `if` keys on its toggle alone. -/
def fingerprint_init_script (cfg : Config) : List Segment :=
  (if cfg.REMOVE_NAVIGATOR_WEBDRIVER then [Segment.removeWebdriver] else []) ++
  (match cfg.FAKE_HARDWARE_CONCURRENCY with
    | some n => [Segment.hardwareConcurrency n]
    | none => []) ++
  (match cfg.FAKE_DEVICE_MEMORY with
    | some n => [Segment.deviceMemory n]
    | none => []) ++
  (if cfg.FP_WEBGL then [Segment.webglOverride cfg.WEBGL_VENDOR cfg.WEBGL_RENDERER] else []) ++
  (if cfg.FP_CANVAS then [Segment.canvasOverride] else []) ++
  (if cfg.FP_AUDIO then [Segment.audioOverride] else []) ++
  (if cfg.FP_DETECT then [Segment.detectProbes] else [])

/-- The page-side state the injected scripts mutate: the `__fp_used` report
(absent until a detect script defines it), how many spoofing wrappers are
stacked on each surface, how many probe wrappers, and the navigator
overrides. -/
structure JsEnv where
  fpUsed : Option FpUsed
  webglPatchWraps : Nat
  canvasPatchWraps : Nat
  audioPatchWraps : Nat
  webglProbeWraps : Nat
  canvasProbeWraps : Nat
  audioProbeWraps : Nat
  webdriverHidden : Bool
  hwConcurrency : Option Nat
  deviceMemory : Option Nat
deriving DecidableEq

/-- The all-false usage report, the value `__fp_used` is initialised with. -/
def fpAllFalse : FpUsed := { webgl := false, canvas := false, audio := false }

/-- The pristine page environment before any injection. -/
def initEnv : JsEnv :=
  { fpUsed := none, webglPatchWraps := 0, canvasPatchWraps := 0, audioPatchWraps := 0,
    webglProbeWraps := 0, canvasProbeWraps := 0, audioProbeWraps := 0,
    webdriverHidden := false, hwConcurrency := none, deviceMemory := none }

/-- Effect of executing one init-script segment (each spoof segment wraps its
surface once more; the detect segment defines `__fp_used` with all-false flags
and wraps each surface with a probe — it carries no re-entry guard). -/
def segEffect (e : JsEnv) : Segment → JsEnv
  | Segment.removeWebdriver => { e with webdriverHidden := true }
  | Segment.hardwareConcurrency n => { e with hwConcurrency := some n }
  | Segment.deviceMemory n => { e with deviceMemory := some n }
  | Segment.webglOverride _ _ => { e with webglPatchWraps := e.webglPatchWraps + 1 }
  | Segment.canvasOverride => { e with canvasPatchWraps := e.canvasPatchWraps + 1 }
  | Segment.audioOverride => { e with audioPatchWraps := e.audioPatchWraps + 1 }
  | Segment.detectProbes =>
    { e with
      fpUsed := some fpAllFalse,
      webglProbeWraps := e.webglProbeWraps + 1,
      canvasProbeWraps := e.canvasProbeWraps + 1,
      audioProbeWraps := e.audioProbeWraps + 1 }

/-- Run every segment of the playwright init script over the fresh page. -/
def runInitScript (cfg : Config) (e : JsEnv) : JsEnv :=
  (fingerprint_init_script cfg).foldl segEffect e

/-- `inject_fp_detection` from `main.py`: a no-op unless `FP_DETECT` is on;
the injected script returns early when `window.__fp_used` already exists,
otherwise it defines the report and wraps the three surfaces with probes. -/
def inject_fp_detection (cfg : Config) (e : JsEnv) : JsEnv :=
  if !cfg.FP_DETECT then e
  else if e.fpUsed.isSome then e
  else
    { e with
      fpUsed := some fpAllFalse,
      webglProbeWraps := e.webglProbeWraps + 1,
      canvasProbeWraps := e.canvasProbeWraps + 1,
      audioProbeWraps := e.audioProbeWraps + 1 }

/-- `apply_fp_overrides` from `main.py`: for each surface, wrap it with a
spoofing patch exactly when the usage flag and the feature toggle are both
true; there is no already-patched guard. -/
def apply_fp_overrides (cfg : Config) (used : FpUsed) (e : JsEnv) : JsEnv :=
  let e1 := if used.webgl && cfg.FP_WEBGL
    then { e with webglPatchWraps := e.webglPatchWraps + 1 } else e
  let e2 := if used.canvas && cfg.FP_CANVAS
    then { e1 with canvasPatchWraps := e1.canvasPatchWraps + 1 } else e1
  if used.audio && cfg.FP_AUDIO
    then { e2 with audioPatchWraps := e2.audioPatchWraps + 1 } else e2

/-- Set the report flag of one surface, as the probe wrappers do on first use. -/
def setFlag (u : FpUsed) : Surface → FpUsed
  | Surface.webgl => { u with webgl := true }
  | Surface.canvas => { u with canvas := true }
  | Surface.audio => { u with audio := true }

/-- A page call into one fingerprint surface: when the probes are installed
(`__fp_used` exists) the call marks the surface used; otherwise it is
unobserved. -/
def touch (e : JsEnv) (s : Surface) : JsEnv :=
  match e.fpUsed with
  | none => e
  | some u => { e with fpUsed := some (setFlag u s) }

/-- Run a page activity trace: the sequence of fingerprint-surface calls the
page makes. -/
def pageRun (e : JsEnv) (tr : List Surface) : JsEnv :=
  tr.foldl touch e

/-- `driver.execute_script("return window.__fp_used || {}")`: a missing report
reads as all-false. -/
def readReport (e : JsEnv) : FpUsed :=
  e.fpUsed.getD fpAllFalse

/-- The fingerprint phases of `browser_login` in source order: install the
probes, let the page run, read the report back, apply the overrides. -/
def browser_login_fp (cfg : Config) (tr : List Surface) : JsEnv :=
  let e1 := inject_fp_detection cfg initEnv
  let e2 := pageRun e1 tr
  apply_fp_overrides cfg (readReport e2) e2

/-- The page environment of a `run_account` session: the init script is added
at context creation, before the page trace runs; `run_account` never invokes
an observe-then-patch step. -/
def run_account_env (cfg : Config) (tr : List Surface) : JsEnv :=
  pageRun (runInitScript cfg initEnv) tr

/-- Observable behavior of `AudioContext.getChannelData` at a sampled index:
every stacked audio patch adds another `1e-7` offset to the sample. -/
def audioSample (e : JsEnv) (x : ℚ) : ℚ :=
  x + e.audioPatchWraps * (1 / 10000000)

/-- Result of a `getParameter` call: a spoofed string or the native value. -/
inductive GlAnswer
  | spoofed (s : String)
  | native (p : Nat)
deriving DecidableEq

/-- Observable behavior of `WebGLRenderingContext.getParameter`: with at least
one spoofing wrapper installed, parameters 37445/37446 answer the configured
vendor/renderer and all others fall through to the native behavior; extra
wrappers delegate inward without changing the answer. -/
def webglParamBehavior (cfg : Config) (e : JsEnv) (p : Nat) : GlAnswer :=
  if e.webglPatchWraps = 0 then GlAnswer.native p
  else if p = 37445 then GlAnswer.spoofed cfg.WEBGL_VENDOR
  else if p = 37446 then GlAnswer.spoofed cfg.WEBGL_RENDERER
  else GlAnswer.native p

/-- Observable behavior of `toDataURL`: whether the export is alpha-perturbed
(setting `globalAlpha = 0.999999` twice equals setting it once). -/
def canvasPerturbed (e : JsEnv) : Bool :=
  decide (0 < e.canvasPatchWraps)

lemma apply_webglPatchWraps (cfg : Config) (u : FpUsed) (e : JsEnv) :
    (apply_fp_overrides cfg u e).webglPatchWraps =
      e.webglPatchWraps + (if u.webgl && cfg.FP_WEBGL then 1 else 0) := by
  unfold apply_fp_overrides
  by_cases h1 : (u.webgl && cfg.FP_WEBGL) = true <;>
    by_cases h2 : (u.canvas && cfg.FP_CANVAS) = true <;>
      by_cases h3 : (u.audio && cfg.FP_AUDIO) = true <;>
        simp [h1, h2, h3]

lemma apply_canvasPatchWraps (cfg : Config) (u : FpUsed) (e : JsEnv) :
    (apply_fp_overrides cfg u e).canvasPatchWraps =
      e.canvasPatchWraps + (if u.canvas && cfg.FP_CANVAS then 1 else 0) := by
  unfold apply_fp_overrides
  by_cases h1 : (u.webgl && cfg.FP_WEBGL) = true <;>
    by_cases h2 : (u.canvas && cfg.FP_CANVAS) = true <;>
      by_cases h3 : (u.audio && cfg.FP_AUDIO) = true <;>
        simp [h1, h2, h3]

lemma apply_audioPatchWraps (cfg : Config) (u : FpUsed) (e : JsEnv) :
    (apply_fp_overrides cfg u e).audioPatchWraps =
      e.audioPatchWraps + (if u.audio && cfg.FP_AUDIO then 1 else 0) := by
  unfold apply_fp_overrides
  by_cases h1 : (u.webgl && cfg.FP_WEBGL) = true <;>
    by_cases h2 : (u.canvas && cfg.FP_CANVAS) = true <;>
      by_cases h3 : (u.audio && cfg.FP_AUDIO) = true <;>
        simp [h1, h2, h3]

lemma inject_patchWraps (cfg : Config) (e : JsEnv) :
    (inject_fp_detection cfg e).webglPatchWraps = e.webglPatchWraps ∧
    (inject_fp_detection cfg e).canvasPatchWraps = e.canvasPatchWraps ∧
    (inject_fp_detection cfg e).audioPatchWraps = e.audioPatchWraps := by
  unfold inject_fp_detection
  split
  · exact ⟨rfl, rfl, rfl⟩
  · split
    · exact ⟨rfl, rfl, rfl⟩
    · exact ⟨rfl, rfl, rfl⟩

lemma touch_patchWraps (e : JsEnv) (s : Surface) :
    (touch e s).webglPatchWraps = e.webglPatchWraps ∧
    (touch e s).canvasPatchWraps = e.canvasPatchWraps ∧
    (touch e s).audioPatchWraps = e.audioPatchWraps := by
  obtain ⟨fp, w1, c1, a1, w2, c2, a2, wd, hc, dm⟩ := e
  cases fp <;> exact ⟨rfl, rfl, rfl⟩

lemma pageRun_patchWraps (tr : List Surface) :
    ∀ e : JsEnv,
      (pageRun e tr).webglPatchWraps = e.webglPatchWraps ∧
      (pageRun e tr).canvasPatchWraps = e.canvasPatchWraps ∧
      (pageRun e tr).audioPatchWraps = e.audioPatchWraps := by
  induction tr with
  | nil => exact fun e => ⟨rfl, rfl, rfl⟩
  | cons s ts ih =>
    intro e
    have ht := touch_patchWraps e s
    have hi := ih (touch e s)
    have hstep : pageRun e (s :: ts) = pageRun (touch e s) ts := rfl
    rw [hstep]
    exact ⟨hi.1.trans ht.1, hi.2.1.trans ht.2.1, hi.2.2.trans ht.2.2⟩

lemma touch_report_webgl {e : JsEnv} {s : Surface} (hs : s ≠ Surface.webgl)
    (he : (readReport e).webgl = false) : (readReport (touch e s)).webgl = false := by
  obtain ⟨fp, w1, c1, a1, w2, c2, a2, wd, hc, dm⟩ := e
  cases fp with
  | none => exact he
  | some u =>
    cases s with
    | webgl => exact absurd rfl hs
    | canvas => simpa [touch, readReport, setFlag] using he
    | audio => simpa [touch, readReport, setFlag] using he

lemma pageRun_report_webgl (tr : List Surface) (htr : Surface.webgl ∉ tr) :
    ∀ e : JsEnv, (readReport e).webgl = false →
      (readReport (pageRun e tr)).webgl = false := by
  induction tr with
  | nil => exact fun e he => he
  | cons s ts ih =>
    intro e he
    have hs : s ≠ Surface.webgl := fun hc => htr (hc ▸ List.mem_cons_self s ts)
    have hts : Surface.webgl ∉ ts := fun hc => htr (List.mem_cons_of_mem s hc)
    have hstep : pageRun e (s :: ts) = pageRun (touch e s) ts := rfl
    rw [hstep]
    exact ih hts (touch e s) (touch_report_webgl hs he)

lemma inject_report_webgl (cfg : Config) :
    (readReport (inject_fp_detection cfg initEnv)).webgl = false := by
  unfold inject_fp_detection initEnv readReport
  split
  · rfl
  · split
    · rfl
    · rfl

/-- A concrete configuration: graphics spoofing and detection enabled. -/
def cfgX : Config :=
  { REMOVE_NAVIGATOR_WEBDRIVER := false, FAKE_HARDWARE_CONCURRENCY := none,
    FAKE_DEVICE_MEMORY := none, FP_WEBGL := true, FP_CANVAS := false, FP_AUDIO := false,
    FP_DETECT := true, WEBGL_VENDOR := "Intel Inc.", WEBGL_RENDERER := "Intel Iris",
    EXPORT_STORAGE := false, WAIT_FOR_SELECTOR := none }

/-- C4 counterexample: a playwright session with the graphics spoof toggle on
and a page that never touches the graphics surface: the usage report reads
`webgl = false`, yet the init script has already installed the graphics patch
at context creation — the report gates nothing in `run_account`. -/
theorem C4_counterexample_playwright_patch_without_usage :
    (readReport (run_account_env cfgX [])).webgl = false ∧
    0 < (run_account_env cfgX []).webglPatchWraps := by
  decide

/-- C4 amended: in the observe-then-patch flow of `main.py`,
`apply_fp_overrides` stacks a patch on a surface exactly when that surface's
report flag and its toggle are both true, and a `browser_login` session whose
page never touches the graphics surface reports `webgl = false` and installs
no graphics patch; the playwright init script of `uncompletedbest.py`, by
contrast, installs toggled patches unconditionally (see the counterexample). -/
theorem C4_patch_gated_by_usage_report_amended :
    (∀ cfg u e,
      ((apply_fp_overrides cfg u e).webglPatchWraps ≠ e.webglPatchWraps ↔
        u.webgl = true ∧ cfg.FP_WEBGL = true) ∧
      ((apply_fp_overrides cfg u e).canvasPatchWraps ≠ e.canvasPatchWraps ↔
        u.canvas = true ∧ cfg.FP_CANVAS = true) ∧
      ((apply_fp_overrides cfg u e).audioPatchWraps ≠ e.audioPatchWraps ↔
        u.audio = true ∧ cfg.FP_AUDIO = true)) ∧
    (∀ cfg tr, Surface.webgl ∉ tr →
      (readReport (pageRun (inject_fp_detection cfg initEnv) tr)).webgl = false ∧
      (browser_login_fp cfg tr).webglPatchWraps = 0) := by
  constructor
  · intro cfg u e
    refine ⟨?_, ?_, ?_⟩
    · rw [apply_webglPatchWraps]
      cases hu : u.webgl <;> cases hf : cfg.FP_WEBGL <;> simp [hu, hf]
    · rw [apply_canvasPatchWraps]
      cases hu : u.canvas <;> cases hf : cfg.FP_CANVAS <;> simp [hu, hf]
    · rw [apply_audioPatchWraps]
      cases hu : u.audio <;> cases hf : cfg.FP_AUDIO <;> simp [hu, hf]
  · intro cfg tr htr
    have hrep := pageRun_report_webgl tr htr (inject_fp_detection cfg initEnv)
      (inject_report_webgl cfg)
    refine ⟨hrep, ?_⟩
    have hwraps : (pageRun (inject_fp_detection cfg initEnv) tr).webglPatchWraps = 0 :=
      (pageRun_patchWraps tr (inject_fp_detection cfg initEnv)).1.trans
        (inject_patchWraps cfg initEnv).1
    show (apply_fp_overrides cfg
      (readReport (pageRun (inject_fp_detection cfg initEnv) tr))
      (pageRun (inject_fp_detection cfg initEnv) tr)).webglPatchWraps = 0
    rw [apply_webglPatchWraps, hwraps, hrep]
    simp

/-- Witness for C4 as amended, at the empty page trace and the concrete
configuration with the graphics toggle enabled. -/
theorem C4_patch_gated_by_usage_report_amended_witness :
    (readReport (pageRun (inject_fp_detection cfgX initEnv) [])).webgl = false ∧
    (browser_login_fp cfgX []).webglPatchWraps = 0 :=
  C4_patch_gated_by_usage_report_amended.2 cfgX [] (by decide)

/-- A concrete configuration with only audio spoofing enabled. -/
def cfgA : Config :=
  { REMOVE_NAVIGATOR_WEBDRIVER := false, FAKE_HARDWARE_CONCURRENCY := none,
    FAKE_DEVICE_MEMORY := none, FP_WEBGL := false, FP_CANVAS := false, FP_AUDIO := true,
    FP_DETECT := false, WEBGL_VENDOR := "", WEBGL_RENDERER := "",
    EXPORT_STORAGE := false, WAIT_FOR_SELECTOR := none }

/-- A usage report marking only the audio surface as used. -/
def usedA : FpUsed := { webgl := false, canvas := false, audio := true }

/-- C5 counterexample: `apply_fp_overrides` has no already-patched guard, so
re-invoking it stacks a second audio wrapper and every sampled audio value
shifts by a second `1e-7` — the installed behavior is not left unchanged. -/
theorem C5_counterexample_reapply_shifts_audio :
    audioSample (apply_fp_overrides cfgA usedA (apply_fp_overrides cfgA usedA initEnv)) 0 ≠
      audioSample (apply_fp_overrides cfgA usedA initEnv) 0 := by
  norm_num [audioSample, apply_fp_overrides, cfgA, usedA, initEnv]

/-- C5 amended: the probe installation step is idempotent (the injected
detection script re-entry guard makes a second `inject_fp_detection` a
no-op), and although re-invoking `apply_fp_overrides` double-wraps a patched
surface, the graphics and canvas observable behaviors are unchanged (only the
audio offset accumulates, see the counterexample); in the `browser_login`
flow the patch step runs once, so each surface carries at most one patch per
session. -/
theorem C5_patch_installation_idempotence_amended :
    (∀ cfg e, inject_fp_detection cfg (inject_fp_detection cfg e) =
      inject_fp_detection cfg e) ∧
    (∀ cfg u e p,
      webglParamBehavior cfg (apply_fp_overrides cfg u (apply_fp_overrides cfg u e)) p =
        webglParamBehavior cfg (apply_fp_overrides cfg u e) p) ∧
    (∀ cfg u e,
      canvasPerturbed (apply_fp_overrides cfg u (apply_fp_overrides cfg u e)) =
        canvasPerturbed (apply_fp_overrides cfg u e)) ∧
    (∀ cfg tr,
      (browser_login_fp cfg tr).webglPatchWraps ≤ 1 ∧
      (browser_login_fp cfg tr).canvasPatchWraps ≤ 1 ∧
      (browser_login_fp cfg tr).audioPatchWraps ≤ 1) := by
  refine ⟨?_, ?_, ?_, ?_⟩
  · intro cfg e
    unfold inject_fp_detection
    by_cases hd : (!cfg.FP_DETECT) = true
    · simp [hd]
    · simp only [hd, if_false, Bool.not_eq_true] at *
      by_cases hs : e.fpUsed.isSome = true
      · simp [hd, hs]
      · simp [hd, hs]
  · intro cfg u e p
    unfold webglParamBehavior
    rw [apply_webglPatchWraps, apply_webglPatchWraps]
    by_cases h : (u.webgl && cfg.FP_WEBGL) = true
    · simp [h]
    · simp [h]
  · intro cfg u e
    unfold canvasPerturbed
    rw [apply_canvasPatchWraps, apply_canvasPatchWraps]
    by_cases h : (u.canvas && cfg.FP_CANVAS) = true
    · simp [h]
    · simp [h]
  · intro cfg tr
    have hw : (pageRun (inject_fp_detection cfg initEnv) tr).webglPatchWraps = 0 :=
      (pageRun_patchWraps tr (inject_fp_detection cfg initEnv)).1.trans
        (inject_patchWraps cfg initEnv).1
    have hc : (pageRun (inject_fp_detection cfg initEnv) tr).canvasPatchWraps = 0 :=
      (pageRun_patchWraps tr (inject_fp_detection cfg initEnv)).2.1.trans
        (inject_patchWraps cfg initEnv).2.1
    have ha : (pageRun (inject_fp_detection cfg initEnv) tr).audioPatchWraps = 0 :=
      (pageRun_patchWraps tr (inject_fp_detection cfg initEnv)).2.2.trans
        (inject_patchWraps cfg initEnv).2.2
    refine ⟨?_, ?_, ?_⟩
    · show (apply_fp_overrides cfg
        (readReport (pageRun (inject_fp_detection cfg initEnv) tr))
        (pageRun (inject_fp_detection cfg initEnv) tr)).webglPatchWraps ≤ 1
      rw [apply_webglPatchWraps, hw]
      split <;> simp
    · show (apply_fp_overrides cfg
        (readReport (pageRun (inject_fp_detection cfg initEnv) tr))
        (pageRun (inject_fp_detection cfg initEnv) tr)).canvasPatchWraps ≤ 1
      rw [apply_canvasPatchWraps, hc]
      split <;> simp
    · show (apply_fp_overrides cfg
        (readReport (pageRun (inject_fp_detection cfg initEnv) tr))
        (pageRun (inject_fp_detection cfg initEnv) tr)).audioPatchWraps ≤ 1
      rw [apply_audioPatchWraps, ha]
      split <;> simp

/-! ### Session runner (`run_account` in `uncompletedbest.py`) -/

/-- The externally visible steps of one `run_account` session, in order. -/
inductive SessEvent
  | navigate
  | waitSel
  | errorLogged
  | dumpRequests
  | exportStorage
  | ctxClose
  | browserClose
deriving DecidableEq

/-- The try/except/finally skeleton of `run_account`: navigate, then wait for
the configured selector when one is set (both fallible, their outcome passed
in as `Except`); an exception is caught and logged; the `finally` block dumps
the captured requests, exports storage state when enabled, closes the context
and the browser, and its `return` makes the function yield the captured list
on every path. -/
def run_account (cfg : Config) (captured : List Req) (nav wait : Except String Unit) :
    List SessEvent × Except String (List Req) :=
  let tryPart :=
    [SessEvent.navigate] ++
      (match nav with
        | Except.error _ => [SessEvent.errorLogged]
        | Except.ok _ =>
          match cfg.WAIT_FOR_SELECTOR with
          | some _ =>
            [SessEvent.waitSel] ++
              (match wait with
                | Except.error _ => [SessEvent.errorLogged]
                | Except.ok _ => [])
          | none => [])
  let finallyPart :=
    [SessEvent.dumpRequests] ++
      (if cfg.EXPORT_STORAGE then [SessEvent.exportStorage] else []) ++
      [SessEvent.ctxClose, SessEvent.browserClose]
  (tryPart ++ finallyPart, Except.ok captured)

/-- C6 counterexample: at a concrete session, the value returned after a
navigation failure is identical to the value returned after a success — the
session's result records nothing about the failure (no success flag, no error
descriptor; the failure is only logged). -/
theorem C6_counterexample_failure_absent_from_result :
    (run_account cfgX [] (Except.error "net::ERR_TIMED_OUT") (Except.ok ())).2 =
      (run_account cfgX [] (Except.ok ()) (Except.ok ())).2 := by
  rfl

/-- C6 amended: the finalize steps (request dump, optional storage export) and
the release of the context and browser run on every exit path, including
navigation or readiness-wait failures, and no such failure escapes to the
caller — the runner always returns the captured-request list; however the
returned value carries no error descriptor (a navigation failure is only
logged, see the counterexample). -/
theorem C6_finalize_and_release_always_amended :
    ∀ (cfg : Config) (captured : List Req) (nav wait : Except String Unit),
      SessEvent.dumpRequests ∈ (run_account cfg captured nav wait).1 ∧
      SessEvent.ctxClose ∈ (run_account cfg captured nav wait).1 ∧
      SessEvent.browserClose ∈ (run_account cfg captured nav wait).1 ∧
      (SessEvent.exportStorage ∈ (run_account cfg captured nav wait).1 ↔
        cfg.EXPORT_STORAGE = true) ∧
      (run_account cfg captured nav wait).2 = Except.ok captured := by
  intro cfg captured nav wait
  rcases nav with e | u <;>
    rcases wait with e2 | u2 <;>
      rcases hsel : cfg.WAIT_FOR_SELECTOR with _ | s <;>
        rcases hex : cfg.EXPORT_STORAGE <;>
          simp [run_account, hsel, hex]

/-- Witness for C6 as amended at a concrete failing navigation. -/
theorem C6_finalize_and_release_always_amended_witness :
    (run_account cfgX [] (Except.error "timeout") (Except.ok ())).2 = Except.ok [] :=
  (C6_finalize_and_release_always_amended cfgX [] (Except.error "timeout")
    (Except.ok ())).2.2.2.2

/-! ### Orchestrator (`run_multiple_accounts` in `uncompletedbest.py`):
`asyncio.Semaphore(concurrency)` admission around each task, all tasks
submitted at once, results joined by `asyncio.gather` in submission order. -/

/-- One submitted session task: its number of internal suspension steps while
admitted, and the captured-request list its `run_account` returns. -/
structure STask where
  work : Nat
  result : List Req
deriving DecidableEq

/-- The lifecycle of one task under the semaphore: waiting for admission,
active inside the gated region with some remaining internal steps, or
terminal with its result. -/
inductive Phase
  | waiting
  | active (rem : Nat)
  | done (res : List Req)
deriving DecidableEq

/-- Is a task currently inside the gated region (admitted, not yet released)? -/
def isActive : Phase → Bool
  | Phase.active _ => true
  | _ => false

/-- How many tasks are inside the gated region. -/
def activeCount (ps : List Phase) : Nat := ps.countP isActive

/-- Interleaving semantics of the cooperative scheduler: any waiting task may
be admitted while fewer than `k` tasks hold the semaphore, any admitted task
may take one internal step, and an admitted task with no remaining work
finishes, releasing its slot and recording its task's result. -/
inductive SStep (k : Nat) (tasks : List STask) : List Phase → List Phase → Prop
  | acquire (ps : List Phase) (i : Nat) (t : STask) (hw : ps[i]? = some Phase.waiting)
      (ht : tasks[i]? = some t) (hcap : activeCount ps < k) :
      SStep k tasks ps (ps.set i (Phase.active t.work))
  | work (ps : List Phase) (i n : Nat) (h : ps[i]? = some (Phase.active (n + 1))) :
      SStep k tasks ps (ps.set i (Phase.active n))
  | finish (ps : List Phase) (i : Nat) (t : STask) (h : ps[i]? = some (Phase.active 0))
      (ht : tasks[i]? = some t) :
      SStep k tasks ps (ps.set i (Phase.done t.result))

/-- Reachability under the scheduler's interleaving. -/
def Reach (k : Nat) (tasks : List STask) : List Phase → List Phase → Prop :=
  Relation.ReflTransGen (SStep k tasks)

/-- All tasks are submitted at once: every task starts waiting. -/
def initPhases (tasks : List STask) : List Phase := tasks.map (fun _ => Phase.waiting)

/-- `asyncio.gather`: the joined result list exists exactly when every task is
terminal, and lists the results in submission order. -/
def collectResults : List Phase → Option (List (List Req))
  | [] => some []
  | Phase.done r :: rest => (collectResults rest).map (fun rs => r :: rs)
  | Phase.waiting :: _ => none
  | Phase.active _ :: _ => none

lemma countP_set {α : Type} (p : α → Bool) :
    ∀ (l : List α) (i : Nat) (a b : α), l[i]? = some a →
      (l.set i b).countP p + (if p a then 1 else 0) = l.countP p + (if p b then 1 else 0) := by
  intro l
  induction l with
  | nil => intro i a b h; cases h
  | cons x xs ih =>
    intro i a b h
    cases i with
    | zero =>
      have hx : x = a := by simpa using h
      subst hx
      simp [List.countP_cons]
      omega
    | succ j =>
      have hj : xs[j]? = some a := by simpa using h
      have := ih j a b hj
      simp [List.countP_cons]
      omega

lemma activeCount_le_of_step {k : Nat} {tasks : List STask} {ps ps2 : List Phase}
    (h : SStep k tasks ps ps2) (hle : activeCount ps ≤ k) : activeCount ps2 ≤ k := by
  cases h with
  | acquire i t hw ht hcap =>
    have hc := countP_set isActive ps i Phase.waiting (Phase.active t.work) hw
    unfold activeCount at *
    simp [isActive] at hc
    omega
  | work i n hn =>
    have hc := countP_set isActive ps i (Phase.active (n + 1)) (Phase.active n) hn
    unfold activeCount at *
    simp [isActive] at hc
    omega
  | finish i t hn ht =>
    have hc := countP_set isActive ps i (Phase.active 0) (Phase.done t.result) hn
    unfold activeCount at *
    simp [isActive] at hc
    omega

lemma reach_activeCount_le {k : Nat} {tasks : List STask} {s s2 : List Phase}
    (h : Reach k tasks s s2) (hs : activeCount s ≤ k) : activeCount s2 ≤ k := by
  induction h with
  | refl => exact hs
  | tail hr hstep ih => exact activeCount_le_of_step hstep ih

lemma activeCount_init (tasks : List STask) : activeCount (initPhases tasks) = 0 := by
  unfold activeCount initPhases
  induction tasks with
  | nil => rfl
  | cons t ts ih => simp [List.countP_cons, isActive, ih]

/-- C9: under the admission gate `k`, in every state reachable from the
initial all-waiting submission no more than `k` sessions are simultaneously
inside the active-execution region, and an admitted session with remaining
work can always take its next step — one task's suspension never disables
another's transition. -/
theorem C9_admission_gate_bound (k : Nat) (tasks : List STask) (s : List Phase)
    (hreach : Reach k tasks (initPhases tasks) s) :
    activeCount s ≤ k ∧
    (∀ i n, s[i]? = some (Phase.active (n + 1)) →
      SStep k tasks s (s.set i (Phase.active n))) := by
  constructor
  · exact reach_activeCount_le hreach (by rw [activeCount_init]; exact Nat.zero_le k)
  · exact fun i n h => SStep.work s i n h

/-- A two-task submission for the concrete witnesses. -/
def tasks2 : List STask := [{ work := 1, result := [] }, { work := 0, result := [reqLogin] }]

/-- Witness for C9: after admitting the first of two tasks under `k = 1`, the
gate bound holds at the reached state. -/
theorem C9_admission_gate_bound_witness :
    activeCount ((initPhases tasks2).set 0 (Phase.active 1)) ≤ 1 :=
  (C9_admission_gate_bound 1 tasks2 _
    (Relation.ReflTransGen.single
      (SStep.acquire (initPhases tasks2) 0 { work := 1, result := [] } rfl rfl (by decide)))).1

/-- The per-index agreement between submitted tasks and their phases: a task
that has reached its terminal phase carries exactly its own result. -/
def PhasesOk (tasks : List STask) (ps : List Phase) : Prop :=
  ps.length = tasks.length ∧
  ∀ (i : Nat) (t : STask) (r : List Req),
    tasks[i]? = some t → ps[i]? = some (Phase.done r) → r = t.result

lemma getElem?_set_self_of_some {α : Type} {l : List α} {i : Nat} {a : α}
    (h : l[i]? = some a) (b : α) : (l.set i b)[i]? = some b := by
  rw [List.getElem?_set_self']
  rw [h]
  rfl

lemma phasesOk_init (tasks : List STask) : PhasesOk tasks (initPhases tasks) := by
  refine ⟨by simp [initPhases], ?_⟩
  intro i t r ht hp
  rw [initPhases, List.getElem?_map, ht] at hp
  simp at hp

lemma phasesOk_step {k : Nat} {tasks : List STask} {ps ps2 : List Phase}
    (h : SStep k tasks ps ps2) (hok : PhasesOk tasks ps) : PhasesOk tasks ps2 := by
  obtain ⟨hlen, hpt⟩ := hok
  cases h with
  | acquire i t hw ht hcap =>
    refine ⟨by simp [hlen], ?_⟩
    intro j t2 r ht2 hj
    by_cases hij : i = j
    · subst hij
      rw [getElem?_set_self_of_some hw] at hj
      simp at hj
    · rw [List.getElem?_set_ne hij] at hj
      exact hpt j t2 r ht2 hj
  | work i n hn =>
    refine ⟨by simp [hlen], ?_⟩
    intro j t2 r ht2 hj
    by_cases hij : i = j
    · subst hij
      rw [getElem?_set_self_of_some hn] at hj
      simp at hj
    · rw [List.getElem?_set_ne hij] at hj
      exact hpt j t2 r ht2 hj
  | finish i t hn ht =>
    refine ⟨by simp [hlen], ?_⟩
    intro j t2 r ht2 hj
    by_cases hij : i = j
    · subst hij
      rw [getElem?_set_self_of_some hn] at hj
      have ht3 : t2 = t := by
        rw [ht] at ht2
        exact (Option.some.inj ht2).symm
      have hr : Phase.done t.result = Phase.done r := Option.some.inj hj
      injection hr with hr2
      rw [ht3, ← hr2]
    · rw [List.getElem?_set_ne hij] at hj
      exact hpt j t2 r ht2 hj

lemma phasesOk_reach {k : Nat} {tasks : List STask} {s s2 : List Phase}
    (h : Reach k tasks s s2) (hs : PhasesOk tasks s) : PhasesOk tasks s2 := by
  induction h with
  | refl => exact hs
  | tail hr hstep ih => exact phasesOk_step hstep ih

lemma collectResults_spec : ∀ {ps : List Phase} {rs : List (List Req)},
    collectResults ps = some rs →
    rs.length = ps.length ∧
    (∀ i : Nat, (∃ r : List Req, ps[i]? = some (Phase.done r) ∧ rs[i]? = some r) ∨
      (ps[i]? = none ∧ rs[i]? = none)) := by
  intro ps
  induction ps with
  | nil =>
    intro rs h
    have hrs : rs = [] := (Option.some.inj h).symm
    subst hrs
    exact ⟨rfl, fun i => Or.inr ⟨rfl, rfl⟩⟩
  | cons p ps2 ih =>
    intro rs h
    cases p with
    | waiting => cases h
    | active m => cases h
    | done r =>
      cases hc : collectResults ps2 with
      | none =>
        rw [collectResults, hc] at h
        cases h
      | some rs2 =>
        rw [collectResults, hc] at h
        have hrs : rs = r :: rs2 := (Option.some.inj h).symm
        subst hrs
        obtain ⟨hl, hp⟩ := ih hc
        refine ⟨by simp [hl], ?_⟩
        intro i
        cases i with
        | zero => exact Or.inl ⟨r, by simp, by simp⟩
        | succ j => simpa using hp j

lemma results_unique {k : Nat} {tasks : List STask} {s : List Phase} {rs : List (List Req)}
    (hreach : Reach k tasks (initPhases tasks) s) (hc : collectResults s = some rs) :
    rs = tasks.map (fun t => t.result) := by
  obtain ⟨hslen, hpt⟩ := phasesOk_reach hreach (phasesOk_init tasks)
  obtain ⟨hrlen, hp⟩ := collectResults_spec hc
  apply List.ext_getElem?
  intro i
  rcases hp i with ⟨r, hsi, hri⟩ | ⟨hsi, hri⟩
  · have hi : i < s.length := (List.getElem?_eq_some_iff.mp hsi).1
    have hit : i < tasks.length := by omega
    cases ht : tasks[i]? with
    | none =>
      rw [List.getElem?_eq_none_iff] at ht
      omega
    | some t =>
      have hr : r = t.result := hpt i t r ht hsi
      rw [hri, List.getElem?_map, ht, hr]
      rfl
  · rw [List.getElem?_eq_none_iff] at hsi
    rw [hri, List.getElem?_map]
    have ht : tasks[i]? = none := List.getElem?_eq_none (by omega)
    rw [ht]
    rfl

lemma set_of_getElem? {α : Type} : ∀ (l : List α) (i : Nat) (a : α),
    l[i]? = some a → l.set i a = l := by
  intro l
  induction l with
  | nil => intro i a h; cases h
  | cons x xs ih =>
    intro i a h
    cases i with
    | zero =>
      have hx : x = a := by simpa using h
      simp [hx]
    | succ j =>
      have hj := ih j a (by simpa using h)
      simp [List.set, hj]

lemma reach_work_chain (k : Nat) (tasks : List STask) (i : Nat) :
    ∀ (n : Nat) (ps : List Phase), ps[i]? = some (Phase.active n) →
      Reach k tasks ps (ps.set i (Phase.active 0)) := by
  intro n
  induction n with
  | zero =>
    intro ps h
    rw [set_of_getElem? ps i (Phase.active 0) h]
    exact Relation.ReflTransGen.refl
  | succ m ih =>
    intro ps h
    have hstep : SStep k tasks ps (ps.set i (Phase.active m)) := SStep.work ps i m h
    have h2 : (ps.set i (Phase.active m))[i]? = some (Phase.active m) :=
      getElem?_set_self_of_some h _
    have h3 := ih (ps.set i (Phase.active m)) h2
    rw [List.set_set] at h3
    exact Relation.ReflTransGen.head hstep h3

lemma reach_complete_one {k : Nat} {tasks : List STask} (hk : 1 ≤ k) (i : Nat) (t : STask)
    (ht : tasks[i]? = some t) (ps : List Phase) (hw : ps[i]? = some Phase.waiting)
    (hac : activeCount ps = 0) :
    Reach k tasks ps (ps.set i (Phase.done t.result)) := by
  have hadm : SStep k tasks ps (ps.set i (Phase.active t.work)) :=
    SStep.acquire ps i t hw ht (by omega)
  have h2 : (ps.set i (Phase.active t.work))[i]? = some (Phase.active t.work) :=
    getElem?_set_self_of_some hw _
  have hchain := reach_work_chain k tasks i t.work (ps.set i (Phase.active t.work)) h2
  rw [List.set_set] at hchain
  have h3 : (ps.set i (Phase.active 0))[i]? = some (Phase.active 0) :=
    getElem?_set_self_of_some hw _
  have hfin : SStep k tasks (ps.set i (Phase.active 0)) (ps.set i (Phase.done t.result)) := by
    have hstep := SStep.finish (k := k) (ps.set i (Phase.active 0)) i t h3 ht
    rwa [List.set_set] at hstep
  exact Relation.ReflTransGen.head hadm (hchain.trans (Relation.ReflTransGen.single hfin))

lemma reach_all_done (k : Nat) (tasks : List STask) (hk : 1 ≤ k) :
    ∀ (d m : Nat) (ps : List Phase), tasks.length - m = d →
      ps.length = tasks.length →
      (∀ (i : Nat) (t : STask), i < m → tasks[i]? = some t →
        ps[i]? = some (Phase.done t.result)) →
      (∀ i : Nat, m ≤ i → i < ps.length → ps[i]? = some Phase.waiting) →
      activeCount ps = 0 →
      ∃ s2, Reach k tasks ps s2 ∧ s2.length = tasks.length ∧
        (∀ (i : Nat) (t : STask), tasks[i]? = some t →
          s2[i]? = some (Phase.done t.result)) := by
  intro d
  induction d with
  | zero =>
    intro m ps hd hlen hdone hwait hac
    refine ⟨ps, Relation.ReflTransGen.refl, hlen, ?_⟩
    intro i t ht
    have hi : i < tasks.length := (List.getElem?_eq_some_iff.mp ht).1
    exact hdone i t (by omega) ht
  | succ d2 ih =>
    intro m ps hd hlen hdone hwait hac
    have hm : m < tasks.length := by omega
    cases hEq : tasks[m]? with
    | none =>
      rw [List.getElem?_eq_none_iff] at hEq
      omega
    | some t =>
      have hwm : ps[m]? = some Phase.waiting := hwait m (Nat.le_refl m) (by omega)
      have hreach1 := reach_complete_one hk m t hEq ps hwm hac
      have hlen2 : (ps.set m (Phase.done t.result)).length = tasks.length := by
        simp [hlen]
      have hdone2 : ∀ (i : Nat) (t2 : STask), i < m + 1 → tasks[i]? = some t2 →
          (ps.set m (Phase.done t.result))[i]? = some (Phase.done t2.result) := by
        intro i t2 hi ht2
        by_cases him : m = i
        · subst him
          rw [getElem?_set_self_of_some hwm]
          rw [hEq] at ht2
          rw [← Option.some.inj ht2]
        · rw [List.getElem?_set_ne him]
          exact hdone i t2 (by omega) ht2
      have hwait2 : ∀ i : Nat, m + 1 ≤ i → i < (ps.set m (Phase.done t.result)).length →
          (ps.set m (Phase.done t.result))[i]? = some Phase.waiting := by
        intro i hi hlt
        rw [List.getElem?_set_ne (by omega)]
        exact hwait i (by omega) (by simpa using hlt)
      have hac2 : activeCount (ps.set m (Phase.done t.result)) = 0 := by
        have hc := countP_set isActive ps m Phase.waiting (Phase.done t.result) hwm
        unfold activeCount at *
        simp [isActive] at hc
        omega
      obtain ⟨s2, hr2, hl2, hd2⟩ :=
        ih (m + 1) (ps.set m (Phase.done t.result)) (by omega) hlen2 hdone2 hwait2 hac2
      exact ⟨s2, hreach1.trans hr2, hl2, hd2⟩

lemma initPhases_getElem? (tasks : List STask) (i : Nat) (h : i < tasks.length) :
    (initPhases tasks)[i]? = some Phase.waiting := by
  rw [initPhases, List.getElem?_map]
  cases hq : tasks[i]? with
  | none =>
    rw [List.getElem?_eq_none_iff] at hq
    omega
  | some t => rfl

lemma collectResults_of_done : ∀ (tasks : List STask) (ps : List Phase),
    ps.length = tasks.length →
    (∀ (i : Nat) (t : STask), tasks[i]? = some t → ps[i]? = some (Phase.done t.result)) →
    collectResults ps = some (tasks.map (fun t => t.result)) := by
  intro tasks
  induction tasks with
  | nil =>
    intro ps hlen hdone
    cases ps with
    | nil => rfl
    | cons p ps2 => simp at hlen
  | cons t ts ih =>
    intro ps hlen hdone
    cases ps with
    | nil => simp at hlen
    | cons p ps2 =>
      have h0 : p = Phase.done t.result := by
        have hh := hdone 0 t (by simp)
        simpa using hh
      subst h0
      have htail : collectResults ps2 = some (ts.map (fun t2 => t2.result)) := by
        apply ih ps2 (by simpa using hlen)
        intro i t2 ht2
        have hh := hdone (i + 1) t2 (by simpa using ht2)
        simpa using hh
      simp [collectResults, htail]

/-- C7: for every submission and every positive gate `k`, the orchestrator's
join can complete — some schedule reaches a state where `gather` returns —
and whenever `gather` returns (which it does only once every submitted
session is terminal), it yields exactly one result per input config, in the
order of the input configs. -/
theorem C7_one_result_per_config_in_order (k : Nat) (tasks : List STask) (hk : 1 ≤ k) :
    (∃ s, Reach k tasks (initPhases tasks) s ∧
      collectResults s = some (tasks.map (fun t => t.result))) ∧
    (∀ (s : List Phase) (rs : List (List Req)),
      Reach k tasks (initPhases tasks) s → collectResults s = some rs →
      rs = tasks.map (fun t => t.result)) := by
  constructor
  · obtain ⟨s2, hr, hl, hd⟩ := reach_all_done k tasks hk tasks.length 0 (initPhases tasks)
      (by omega) (by simp [initPhases])
      (fun i t hlt _ => absurd hlt (Nat.not_lt_zero i))
      (fun i _ h2 => initPhases_getElem? tasks i (by simpa [initPhases] using h2))
      (activeCount_init tasks)
    exact ⟨s2, hr, collectResults_of_done tasks s2 hl hd⟩
  · intro s rs hr hc
    exact results_unique hr hc

/-- Witness for C7 at the concrete two-task submission under `k = 1`. -/
theorem C7_one_result_per_config_in_order_witness :
    ∃ s, Reach 1 tasks2 (initPhases tasks2) s ∧
      collectResults s = some (tasks2.map (fun t => t.result)) :=
  (C7_one_result_per_config_in_order 1 tasks2 (by decide)).1

/-- Witness for C2 as amended: a single-leading-dot cookie domain matches a
proper subdomain host. -/
theorem C2_domain_match_amended_witness :
    domain_match ".example.com" "www.example.com" = true :=
  (C2_domain_match_amended.1 ".example.com" "www.example.com").mpr
    ⟨by decide, Or.inr ⟨"www".data, by decide⟩⟩
